import Mathlib

/-
Shallow embedding of fastthread.c (cooperative blocking synchronization
primitives for Ruby 1.8: WaitList, Mutex, ConditionVariable, Queue /
SizedQueue).

Modelling conventions:
  * a Ruby `VALUE` is modelled as `Option Nat`: `none` stands for a
    non-truthy VALUE (`Qnil` / `Qfalse`), `some n` for a truthy VALUE
    (a task handle, a queue value, or a Fixnum such as `ULONG2NUM(cap)`).
    `RTEST` is truthiness, exactly as in the C macro.
  * the C `List` structure (entries chain, last_entry, entry_pool, size)
    becomes `WList`: the live chain is the list `entries` (front =
    `list->entries`, back = `list->last_entry`), the free pool is the
    list `pool` (front = `list->entry_pool`), and `size` is kept as a
    separate field exactly as in the C, NOT derived from `entries`.
  * `USE_MEM_POOLS` becomes an explicit boolean parameter of the
    operations it affects (`shift_listF`, `clear_listF`); the plain
    `shift_list` / `clear_list` fix it to `true`, the default when
    `$fastthread_avoid_mem_pools` is unset.
  * scheduling: each exported operation is modelled up to its first
    cooperative suspension point.  `rb_thread_stop` is recorded as a
    `.suspended` event in the operation's event trace; `signal_condvar`
    is recorded as a `.signalSpace` event when applied to the queue's
    "space available" condition variable.  Liveness of a task handle
    (whether `rb_thread_wakeup` succeeds or raises ThreadError) is an
    environment parameter `alive : Nat → Bool`.
-/

set_option autoImplicit false

namespace Fastthread

/-- Ruby VALUE: `none` = Qnil/Qfalse (non-truthy), `some n` = truthy. -/
abbrev Val := Option Nat

/-- The RTEST macro: truthiness of a VALUE. -/
def RTEST : Val → Bool
  | none => false
  | some _ => true

/-- The C `List` struct: live entry chain, free-node pool, stored size.
Pool nodes keep their `value` field (the C never clears it), so `pool`
records the stale values sitting in pooled nodes. -/
structure WList where
  entries : List Val
  pool : List Val
  size : Nat
  deriving DecidableEq, Repr

/-- init_list: all fields zeroed. -/
def init_list : WList := ⟨[], [], 0⟩

/-- push_list: take a node from the pool head if available (its stale
value is overwritten), else malloc a fresh node; append at last_entry;
increment size. -/
def push_list (list : WList) (value : Val) : WList :=
  match list.pool with
  | [] => ⟨list.entries ++ [value], [], list.size + 1⟩
  | _ :: rest => ⟨list.entries ++ [value], rest, list.size + 1⟩

/-- push_multiple_list: push each of `values` in order
(`for (i = 0; i < count; i++) push_list(list, values[i]);`). -/
def push_multiple_list (list : WList) : List Val → WList
  | [] => list
  | v :: vs => push_multiple_list (push_list list v) vs

/-- shift_list, parametrised by USE_MEM_POOLS.  Returns `none` for
Qundef when the chain is empty; otherwise unlinks the front node,
decrements size, and either threads the node (stale value included)
onto the pool head (pools on) or frees it (pools off). -/
def shift_listF (useMemPools : Bool) (list : WList) : Option Val × WList :=
  match list.entries with
  | [] => (none, list)
  | value :: rest =>
      (some value,
       ⟨rest, cond useMemPools (value :: list.pool) list.pool, list.size - 1⟩)

/-- shift_list with the default pooling behaviour. -/
def shift_list (list : WList) : Option Val × WList :=
  shift_listF true list

/-- clear_list, parametrised by USE_MEM_POOLS: no-op when last_entry is
NULL; otherwise splice the whole chain onto the pool (pools on) or free
it (pools off), and zero entries/last_entry/size. -/
def clear_listF (useMemPools : Bool) (list : WList) : WList :=
  match list.entries with
  | [] => list
  | _ :: _ =>
      ⟨[], cond useMemPools (list.entries ++ list.pool) list.pool, 0⟩

/-- clear_list with the default pooling behaviour. -/
def clear_list (list : WList) : WList :=
  clear_listF true list

/-- array_from_list: snapshot of the live chain values in order. -/
def array_from_list (list : WList) : List Val :=
  list.entries

/-- wake_thread: `rb_thread_wakeup` rescued against ThreadError — returns
the thread handle when the task is still schedulable, Qnil otherwise. -/
def wake_thread (alive : Nat → Bool) : Val → Val
  | none => none
  | some t => if alive t then some t else none

/-- Loop body of wake_one: `while (list->entries && !RTEST(waking))
waking = wake_thread(shift_list(list));` with `shift_list` (pools on)
inlined — the shifted node goes to the pool head, size decremented. -/
def wakeOneAux (alive : Nat → Bool) : List Val → List Val → Nat → Val × WList
  | [], pool, size => (none, ⟨[], pool, size⟩)
  | v :: rest, pool, size =>
      let waking := wake_thread alive v
      if RTEST waking then (waking, ⟨rest, v :: pool, size - 1⟩)
      else wakeOneAux alive rest (v :: pool) (size - 1)

/-- wake_one: pop entries until one wakes or the list is exhausted. -/
def wake_one (alive : Nat → Bool) (list : WList) : Val × WList :=
  wakeOneAux alive list.entries list.pool list.size

/-- signal_condvar: wake_one on the condvar's wait list, then
`run_thread(waking)` when truthy.  Returns the updated wait list and the
handle of the task actually woken (Qnil when none). -/
def signal_condvar (alive : Nat → Bool) (waiting : WList) : WList × Val :=
  let r := wake_one alive waiting
  (r.2, r.1)

/-- Observable scheduler events emitted by an operation. -/
inductive Event where
  /-- rb_thread_stop by task `t` (cooperative suspension). -/
  | suspended (t : Nat)
  /-- signal_condvar on a queue's "space available" condvar; `woken` is
  the task it actually resumed, Qnil when none woke. -/
  | signalSpace (woken : Val)
  deriving DecidableEq, Repr

/-- Event is a signalSpace. -/
def isSpaceSignal : Event → Bool
  | .signalSpace _ => true
  | _ => false

/-- Event is a signalSpace that actually woke a task. -/
def isSpaceWake : Event → Bool
  | .signalSpace (some _) => true
  | _ => false

/-- Event is a cooperative suspension. -/
def isSuspend : Event → Bool
  | .suspended _ => true
  | _ => false

/-- The Mutex struct: owner (Qnil when unlocked) plus wait list. -/
structure Mutex where
  owner : Val
  waiting : WList
  deriving DecidableEq, Repr

/-- init_mutex. -/
def init_mutex : Mutex := ⟨none, init_list⟩

/-- rb_mutex_try_lock: inside the critical region, claim ownership iff
unowned; never suspends (empty event trace). -/
def rb_mutex_try_lock (t : Nat) (mutex : Mutex) : Bool × Mutex × List Event :=
  if RTEST mutex.owner then (false, mutex, [])
  else (true, { mutex with owner := some t }, [])

/-- unlock_mutex: Qundef (modelled as `false`) when there is no owner;
otherwise clear the owner, wake_one on the wait list, run the woken
task. -/
def unlock_mutex (alive : Nat → Bool) (mutex : Mutex) : Bool × Mutex :=
  if RTEST mutex.owner then
    let r := wake_one alive mutex.waiting
    (true, ⟨none, r.2⟩)
  else (false, mutex)

/-- Outcome of wait_condvar, which is modelled up to its suspension
point (after resume the C re-acquires the mutex via lock_mutex). -/
inductive WaitRes where
  /-- mutex unowned at call time: immediate return. -/
  | immediate
  /-- mutex owned by another task: rb_raise(ThreadError, "Not owner"). -/
  | ownershipError
  /-- caller owned the mutex: owner cleared, caller enqueued on the
  condvar and suspended. -/
  | blocked
  deriving DecidableEq, Repr

/-- wait_condvar for the native mutex path, called by task `t`:
if !RTEST(owner) return; if owner != current raise ThreadError;
else owner = Qnil, push current on the condvar list, rb_thread_stop. -/
def wait_condvar (t : Nat) (condvar : WList) (mutex : Mutex) :
    WaitRes × WList × Mutex × List Event :=
  if RTEST mutex.owner = false then (.immediate, condvar, mutex, [])
  else if mutex.owner ≠ some t then (.ownershipError, condvar, mutex, [])
  else (.blocked, push_list condvar (some t), { mutex with owner := none },
        [.suspended t])

/-- The Queue struct: internal mutex, the two condition variables
(represented by their wait lists), the FIFO value list, capacity
(0 = unbounded). -/
structure Queue where
  mutex : Mutex
  value_available : WList
  space_available : WList
  values : WList
  capacity : Nat
  deriving DecidableEq, Repr

/-- init_queue, as used by rb_queue_alloc: everything empty, unbounded. -/
def init_queue : Queue :=
  ⟨init_mutex, init_list, init_list, init_list, 0⟩

/-- Outcome of rb_queue_pop, modelled up to its first suspension. -/
inductive PopRes where
  /-- the shifted value is returned. -/
  | ok (value : Val)
  /-- rb_raise(ThreadError, "queue empty") — non-blocking pop on empty. -/
  | emptyError
  /-- lock_mutex found the internal mutex owned: caller enqueued on the
  mutex wait list and suspended. -/
  | blockedOnMutex
  /-- wait_condvar on "value available": caller enqueued and suspended. -/
  | blockedOnValue
  deriving DecidableEq, Repr

/-- rb_queue_pop, called by task `t`; `should_block` is the computed
`!RTEST(argv[0])`.  lock_mutex; if the value chain is empty: raise after
unlocking when non-blocking, else wait on "value available" (owner
cleared, caller enqueued, suspended); otherwise shift the front value,
signal "space available" when capacity is bounded and size dropped
below it, unlock, return the value. -/
def rb_queue_pop (alive : Nat → Bool) (t : Nat) (should_block : Bool)
    (q : Queue) : PopRes × Queue × List Event :=
  if RTEST q.mutex.owner then
    (.blockedOnMutex,
     { q with mutex := { q.mutex with waiting := push_list q.mutex.waiting (some t) } },
     [.suspended t])
  else
    match q.values.entries with
    | [] =>
        if should_block then
          (.blockedOnValue,
           { q with mutex := { q.mutex with owner := none },
                    value_available := push_list q.value_available (some t) },
           [.suspended t])
        else
          let u := unlock_mutex alive { q.mutex with owner := some t }
          (.emptyError, { q with mutex := u.2 }, [])
    | value :: _ =>
        let values' := (shift_list q.values).2
        let sig : WList × List Event :=
          if q.capacity ≠ 0 ∧ values'.size < q.capacity then
            let s := signal_condvar alive q.space_available
            (s.1, [.signalSpace s.2])
          else (q.space_available, [])
        let u := unlock_mutex alive { q.mutex with owner := some t }
        (.ok value,
         { q with values := values', space_available := sig.1, mutex := u.2 },
         sig.2)

/-- Outcome of rb_queue_clear / rb_sized_queue_max_set. -/
inductive OpRes where
  | ok
  /-- rb_raise(rb_eArgError, "value must be positive"). -/
  | argError
  /-- lock_mutex found the internal mutex owned: caller suspended. -/
  | blockedOnMutex
  deriving DecidableEq, Repr

/-- rb_queue_clear, called by task `t`: lock_mutex; clear_list on the
values; signal_condvar on "space available" (exactly one call,
unconditionally); unlock_mutex. -/
def rb_queue_clear (alive : Nat → Bool) (t : Nat) (q : Queue) :
    OpRes × Queue × List Event :=
  if RTEST q.mutex.owner then
    (.blockedOnMutex,
     { q with mutex := { q.mutex with waiting := push_list q.mutex.waiting (some t) } },
     [.suspended t])
  else
    let values' := clear_list q.values
    let s := signal_condvar alive q.space_available
    let u := unlock_mutex alive { q.mutex with owner := some t }
    (.ok, { q with values := values', space_available := s.1, mutex := u.2 },
     [.signalSpace s.2])

/-- rb_sized_queue_max_set, called by task `t` with `new_capacity`
already converted by NUM2ULONG: raise ArgumentError when < 1;
lock_mutex; difference = new - current ONLY when the current capacity
is nonzero and new exceeds it, else 0; store the new capacity; call
signal_condvar on "space available" `difference` times; unlock. -/
def signalTimes (alive : Nat → Bool) : Nat → WList → WList × List Event
  | 0, waiting => (waiting, [])
  | n + 1, waiting =>
      let s := signal_condvar alive waiting
      let r := signalTimes alive n s.1
      (r.1, Event.signalSpace s.2 :: r.2)

/-- rb_sized_queue_max_set proper (see signalTimes for the loop). -/
def rb_sized_queue_max_set (alive : Nat → Bool) (t : Nat) (q : Queue)
    (new_capacity : Nat) : OpRes × Queue × List Event :=
  if new_capacity < 1 then (.argError, q, [])
  else if RTEST q.mutex.owner then
    (.blockedOnMutex,
     { q with mutex := { q.mutex with waiting := push_list q.mutex.waiting (some t) } },
     [.suspended t])
  else
    let difference :=
      if q.capacity ≠ 0 ∧ new_capacity > q.capacity then new_capacity - q.capacity
      else 0
    let s := signalTimes alive difference q.space_available
    let u := unlock_mutex alive { q.mutex with owner := some t }
    (.ok,
     { q with capacity := new_capacity, space_available := s.1, mutex := u.2 },
     s.2)

/-- Errors of rb_queue_marshal_load. -/
inductive MarshalErr where
  /-- "missing capacity value": the record has zero fields. -/
  | missingCapacity
  /-- NUM2ULONG on a non-numeric first field. -/
  | notInteger
  deriving DecidableEq, Repr

/-- rb_queue_marshal_dump: array_from_list of the values, with
ULONG2NUM(capacity) unshifted at the front.  The host marshal framing
(rb_marshal_dump) is outside the core; the record is its logical field
list. -/
def rb_queue_marshal_dump (q : Queue) : List Val :=
  some q.capacity :: array_from_list q.values

/-- rb_queue_marshal_load: fail when the record has no fields; otherwise
shift the first field into the capacity (NUM2ULONG) and push the
remaining fields onto the existing value list with push_multiple_list.
The existing contents are NOT cleared first. -/
def rb_queue_marshal_load (q : Queue) (array : List Val) :
    Except MarshalErr Queue :=
  match array with
  | [] => .error .missingCapacity
  | c :: rest =>
      match c with
      | some cap =>
          .ok { q with capacity := cap,
                       values := push_multiple_list q.values rest }
      | none => .error .notInteger

/-- Repeatedly shift_list until the chain is empty, collecting the
returned values: the FIFO pop order of the stored values.  Fuel-indexed
so the recursion is structural; `entries.length` fuel always suffices. -/
def drainAux : Nat → WList → List Val
  | 0, _ => []
  | fuel + 1, list =>
      match shift_list list with
      | (some v, list') => v :: drainAux fuel list'
      | (none, _) => []

/-- The sequence of values produced by repeated shift_list. -/
def drain (list : WList) : List Val :=
  drainAux list.entries.length list

/-- A WaitList operation (the client-visible interface of §4.1). -/
inductive LOp where
  | push (v : Val)
  | shift
  | clear
  | size
  | toSeq
  deriving DecidableEq, Repr

/-- Observation produced by one WaitList operation. -/
inductive Obs where
  | pushed
  | shifted (r : Option Val)
  | cleared
  | sizeIs (n : Nat)
  | seqIs (vs : List Val)
  deriving DecidableEq, Repr

/-- One WaitList operation, parametrised by USE_MEM_POOLS. -/
def stepOp (useMemPools : Bool) (list : WList) : LOp → Obs × WList
  | .push v => (.pushed, push_list list v)
  | .shift =>
      let r := shift_listF useMemPools list
      (.shifted r.1, r.2)
  | .clear => (.cleared, clear_listF useMemPools list)
  | .size => (.sizeIs list.size, list)
  | .toSeq => (.seqIs (array_from_list list), list)

/-- Run a sequence of WaitList operations, collecting the observation
of every step. -/
def runOps (useMemPools : Bool) : List LOp → WList → List Obs × WList
  | [], list => ([], list)
  | op :: ops, list =>
      let r := stepOp useMemPools list op
      let rest := runOps useMemPools ops r.2
      (r.1 :: rest.1, rest.2)

/-- WaitLists reachable from init_list by push/shift/clear (pools on,
the default). -/
inductive ReachableList : WList → Prop where
  | init : ReachableList init_list
  | push (l : WList) (v : Val) : ReachableList l → ReachableList (push_list l v)
  | shift (l : WList) : ReachableList l → ReachableList (shift_list l).2
  | clear (l : WList) : ReachableList l → ReachableList (clear_list l)

/-! Helper lemmas about the WaitList operations. -/

theorem push_list_entries (l : WList) (v : Val) :
    (push_list l v).entries = l.entries ++ [v] := by
  cases hp : l.pool <;> simp [push_list, hp]

theorem push_list_size (l : WList) (v : Val) :
    (push_list l v).size = l.size + 1 := by
  cases hp : l.pool <;> simp [push_list, hp]

theorem push_multiple_list_entries (vs : List Val) :
    ∀ l : WList, (push_multiple_list l vs).entries = l.entries ++ vs := by
  induction vs with
  | nil => intro l; simp [push_multiple_list]
  | cons v vs ih => intro l; simp [push_multiple_list, ih, push_list_entries]

theorem drainAux_eq (fuel : Nat) :
    ∀ l : WList, l.entries.length ≤ fuel → drainAux fuel l = l.entries := by
  induction fuel with
  | zero =>
      intro l h
      have : l.entries = [] := List.length_eq_zero.mp (Nat.le_zero.mp h)
      simp [drainAux, this]
  | succ n ih =>
      intro l h
      cases he : l.entries with
      | nil => simp [drainAux, shift_list, shift_listF, he]
      | cons v rest =>
          have hr : rest.length ≤ n := by
            have := h; rw [he] at this; simpa using this
          simp [drainAux, shift_list, shift_listF, he, ih ⟨rest, v :: l.pool, l.size - 1⟩ hr]

theorem drain_eq_entries (l : WList) : drain l = l.entries :=
  drainAux_eq l.entries.length l le_rfl

/-- C2 (amended part): the stored size field of every reachable WaitList
equals the length of its live entry chain. -/
theorem reachable_size_eq_entries_length (l : WList) (h : ReachableList l) :
    l.size = l.entries.length := by
  induction h with
  | init => rfl
  | push l v _ ih => simp [push_list_entries, push_list_size, ih]
  | shift l _ ih =>
      cases he : l.entries with
      | nil => simpa [shift_list, shift_listF, he] using ih
      | cons v rest =>
          rw [he] at ih
          simp only [shift_list, shift_listF, he, List.length_cons] at ih ⊢
          omega
  | clear l _ ih =>
      cases he : l.entries with
      | nil => simpa [clear_list, clear_listF, he] using ih
      | cons v rest => simp [clear_list, clear_listF, he]

/-- C2 witness: the size/length equation at a concrete reachable list. -/
theorem reachable_size_eq_entries_length_witness :
    (push_list init_list (some 3)).size =
      (push_list init_list (some 3)).entries.length :=
  reachable_size_eq_entries_length _ (ReachableList.push _ _ ReachableList.init)

/-- C2 counterexample: the invariant claimed for pooled nodes fails —
after push (some 7) then shift, the recycled node still holds the stale
task reference `some 7`; the code never clears `entry->value` when a
node is returned to the pool. -/
theorem waitList_pool_claim_counterexample :
    ¬ (∀ l : WList, ReachableList l →
        (l.size = l.entries.length ∧ ∀ v ∈ l.pool, v = none)) := by
  intro hclaim
  have hr : ReachableList (shift_list (push_list init_list (some 7))).2 :=
    ReachableList.shift _ (ReachableList.push _ _ ReachableList.init)
  have h2 := (hclaim _ hr).2 (some 7) (by decide)
  exact Option.noConfusion h2

/-! Pooling is observationally irrelevant (C7). -/

theorem runOps_pool_indep (ops : List LOp) :
    ∀ l₁ l₂ : WList, l₁.entries = l₂.entries → l₁.size = l₂.size →
      (runOps true ops l₁).1 = (runOps false ops l₂).1 ∧
      (runOps true ops l₁).2.entries = (runOps false ops l₂).2.entries ∧
      (runOps true ops l₁).2.size = (runOps false ops l₂).2.size := by
  induction ops with
  | nil => intro l₁ l₂ he hs; exact ⟨rfl, he, hs⟩
  | cons op ops ih =>
      intro l₁ l₂ he hs
      cases op with
      | push v =>
          have h := ih (push_list l₁ v) (push_list l₂ v)
            (by rw [push_list_entries, push_list_entries, he])
            (by rw [push_list_size, push_list_size, hs])
          simp only [runOps, stepOp]
          exact ⟨by rw [h.1], h.2.1, h.2.2⟩
      | shift =>
          cases hel : l₁.entries with
          | nil =>
              have hel₂ : l₂.entries = [] := he ▸ hel
              have h := ih l₁ l₂ he hs
              simp only [runOps, stepOp, shift_listF, hel, hel₂]
              exact ⟨by rw [h.1], h.2.1, h.2.2⟩
          | cons v rest =>
              have hel₂ : l₂.entries = v :: rest := he ▸ hel
              have h := ih ⟨rest, v :: l₁.pool, l₁.size - 1⟩ ⟨rest, l₂.pool, l₂.size - 1⟩
                rfl (by simp [hs])
              simp only [runOps, stepOp, shift_listF, hel, hel₂,
                Bool.cond_true, Bool.cond_false]
              exact ⟨by rw [h.1], h.2.1, h.2.2⟩
      | clear =>
          cases hel : l₁.entries with
          | nil =>
              have hel₂ : l₂.entries = [] := he ▸ hel
              have h := ih l₁ l₂ he hs
              simp only [runOps, stepOp, clear_listF, hel, hel₂]
              exact ⟨by rw [h.1], h.2.1, h.2.2⟩
          | cons v rest =>
              have hel₂ : l₂.entries = v :: rest := he ▸ hel
              have h := ih ⟨[], v :: (rest ++ l₁.pool), 0⟩ ⟨[], l₂.pool, 0⟩ rfl rfl
              simp only [runOps, stepOp, clear_listF, hel, hel₂,
                Bool.cond_true, Bool.cond_false, List.cons_append]
              exact ⟨by rw [h.1], h.2.1, h.2.2⟩
      | size =>
          have h := ih l₁ l₂ he hs
          simp only [runOps, stepOp]
          exact ⟨by rw [h.1, hs], h.2.1, h.2.2⟩
      | toSeq =>
          have h := ih l₁ l₂ he hs
          simp only [runOps, stepOp, array_from_list]
          exact ⟨by rw [h.1, he], h.2.1, h.2.2⟩

/-- C7: running any sequence of WaitList operations (push, shift, clear,
size, toSequence) with node pooling enabled and with pooling disabled
from the empty list yields identical observations at every step (the
same shift results, size readings and entry snapshots) and identical
final live chain and size. -/
theorem waitList_pooling_observational_equiv (ops : List LOp) :
    (runOps true ops init_list).1 = (runOps false ops init_list).1 ∧
    (runOps true ops init_list).2.entries = (runOps false ops init_list).2.entries ∧
    (runOps true ops init_list).2.size = (runOps false ops init_list).2.size :=
  runOps_pool_indep ops init_list init_list rfl rfl

/-- C3: when the supplied mutex has no owner at call time, wait_condvar
returns immediately: the condition variable's wait list and the mutex
are unchanged, the caller is not enqueued and not suspended (empty
event trace). -/
theorem wait_unowned_noop (t : Nat) (condvar : WList) (mutex : Mutex)
    (h : mutex.owner = none) :
    wait_condvar t condvar mutex = (.immediate, condvar, mutex, []) := by
  simp [wait_condvar, RTEST, h]

/-- C3 witness: concrete immediate return on an unowned mutex. -/
theorem wait_unowned_noop_witness :
    wait_condvar 0 init_list init_mutex = (.immediate, init_list, init_mutex, []) :=
  wait_unowned_noop 0 init_list init_mutex rfl

/-- C4: wait_condvar raises the ownership error exactly when the mutex
has an owner and that owner is not the calling task; in that case the
condvar wait list and the mutex are unmodified and no suspension event
was emitted. -/
theorem wait_ownership_error_iff (t : Nat) (condvar : WList) (mutex : Mutex) :
    ((wait_condvar t condvar mutex).1 = .ownershipError ↔
      RTEST mutex.owner = true ∧ mutex.owner ≠ some t) ∧
    ((wait_condvar t condvar mutex).1 = .ownershipError →
      (wait_condvar t condvar mutex).2.1 = condvar ∧
      (wait_condvar t condvar mutex).2.2.1 = mutex ∧
      (wait_condvar t condvar mutex).2.2.2.countP isSuspend = 0) := by
  cases ho : mutex.owner with
  | none => simp [wait_condvar, RTEST, ho]
  | some o =>
      by_cases hot : o = t
      · subst hot; simp [wait_condvar, RTEST, ho]
      · simp [wait_condvar, RTEST, ho, hot]

/-- C4 witness: a concrete non-owner call raises and leaves the condvar
wait list untouched. -/
theorem wait_ownership_error_iff_witness :
    (wait_condvar 0 init_list ⟨some 1, init_list⟩).1 = .ownershipError ∧
    (wait_condvar 0 init_list ⟨some 1, init_list⟩).2.1 = init_list := by
  have h := wait_ownership_error_iff 0 init_list ⟨some 1, init_list⟩
  have he : (wait_condvar 0 init_list ⟨some 1, init_list⟩).1 = .ownershipError :=
    h.1.mpr ⟨rfl, by decide⟩
  exact ⟨he, (h.2 he).1⟩

/-- C9: rb_mutex_try_lock returns true iff the mutex had no owner at the
call; on true the caller becomes the owner, on false the mutex is
unchanged, and in all cases no suspension event is emitted. -/
theorem try_lock_spec (t : Nat) (mutex : Mutex) :
    ((rb_mutex_try_lock t mutex).1 = true ↔ mutex.owner = none) ∧
    ((rb_mutex_try_lock t mutex).1 = true →
      (rb_mutex_try_lock t mutex).2.1.owner = some t) ∧
    ((rb_mutex_try_lock t mutex).1 = false →
      (rb_mutex_try_lock t mutex).2.1 = mutex) ∧
    (rb_mutex_try_lock t mutex).2.2.countP isSuspend = 0 := by
  cases ho : mutex.owner <;> simp [rb_mutex_try_lock, RTEST, ho]

/-- C9 witness: try_lock on a concrete unowned mutex succeeds and claims
ownership. -/
theorem try_lock_spec_witness :
    (rb_mutex_try_lock 3 init_mutex).1 = true ∧
    (rb_mutex_try_lock 3 init_mutex).2.1.owner = some 3 := by
  have h := try_lock_spec 3 init_mutex
  have ht := h.1.mpr rfl
  exact ⟨ht, h.2.1 ht⟩

/-- C5: dumping a queue with capacity c and FIFO contents vs yields the
record `c :: vs`, and loading that record into a freshly allocated
queue (init_queue: empty, capacity 0) yields capacity c and a value
list that pops (repeated shift_list) exactly vs in order. -/
theorem queue_marshal_round_trip (q : Queue) (c : Nat) (vs : List Val)
    (hc : q.capacity = c) (hv : q.values.entries = vs) :
    rb_queue_marshal_dump q = some c :: vs ∧
    (rb_queue_marshal_load init_queue (rb_queue_marshal_dump q)).map
        (fun r => (r.capacity, drain r.values)) = .ok (c, vs) := by
  subst hc hv
  refine ⟨by simp [rb_queue_marshal_dump, array_from_list], ?_⟩
  simp [rb_queue_marshal_dump, rb_queue_marshal_load, array_from_list,
        Except.map, drain_eq_entries, push_multiple_list_entries, init_queue,
        init_list]

/-- C5 witness: concrete round trip of capacity 3, values 1, 2, 3. -/
theorem queue_marshal_round_trip_witness :
    rb_queue_marshal_dump
        ⟨init_mutex, init_list, init_list, ⟨[some 1, some 2, some 3], [], 3⟩, 3⟩ =
      some 3 :: [some 1, some 2, some 3] ∧
    (rb_queue_marshal_load init_queue
        (rb_queue_marshal_dump
          ⟨init_mutex, init_list, init_list, ⟨[some 1, some 2, some 3], [], 3⟩, 3⟩)).map
        (fun r => (r.capacity, drain r.values)) =
      .ok (3, [some 1, some 2, some 3]) :=
  queue_marshal_round_trip
    ⟨init_mutex, init_list, init_list, ⟨[some 1, some 2, some 3], [], 3⟩, 3⟩
    3 [some 1, some 2, some 3] rfl rfl

/-- C10: rb_queue_marshal_load does not reset the target queue: it
overwrites the capacity with the record's first field and appends the
record's remaining values after the values already present. -/
theorem marshal_load_appends (q : Queue) (c : Nat) (vs : List Val) :
    (rb_queue_marshal_load q (some c :: vs)).map
        (fun r => (r.capacity, r.values.entries)) =
      .ok (c, q.values.entries ++ vs) := by
  simp [rb_queue_marshal_load, Except.map, push_multiple_list_entries]

/-- C6: non-blocking pop on an empty queue fails with the empty-queue
error; the internal mutex is unlocked again before the error
propagates, the value list, capacity and both condition-variable wait
lists are unchanged, and the caller is never suspended. -/
theorem pop_nonblocking_empty_error (alive : Nat → Bool) (t : Nat) (q : Queue)
    (howner : q.mutex.owner = none) (hempty : q.values.entries = []) :
    (rb_queue_pop alive t false q).1 = .emptyError ∧
    (rb_queue_pop alive t false q).2.1.values = q.values ∧
    (rb_queue_pop alive t false q).2.1.capacity = q.capacity ∧
    (rb_queue_pop alive t false q).2.1.value_available = q.value_available ∧
    (rb_queue_pop alive t false q).2.1.space_available = q.space_available ∧
    (rb_queue_pop alive t false q).2.1.mutex.owner = none ∧
    (rb_queue_pop alive t false q).2.2.countP isSuspend = 0 := by
  simp [rb_queue_pop, RTEST, howner, hempty, unlock_mutex]

/-- C6 witness: non-blocking pop on the freshly allocated (empty)
queue. -/
theorem pop_nonblocking_empty_error_witness :
    (rb_queue_pop (fun _ => true) 0 false init_queue).1 = .emptyError ∧
    (rb_queue_pop (fun _ => true) 0 false init_queue).2.1.mutex.owner = none := by
  have h := pop_nonblocking_empty_error (fun _ => true) 0 init_queue rfl rfl
  exact ⟨h.1, h.2.2.2.2.2.1⟩

/-- C8: clear discards all queued values (length becomes 0) and signals
"space available" exactly once, waking at most one blocked producer,
no matter how many values were discarded.  (The hypothesis that the
stored size matches the chain length is the reachable-state invariant
proved in reachable_size_eq_entries_length.) -/
theorem clear_signals_once (alive : Nat → Bool) (t : Nat) (q : Queue)
    (howner : q.mutex.owner = none)
    (hsize : q.values.size = q.values.entries.length) :
    (rb_queue_clear alive t q).2.1.values.size = 0 ∧
    (rb_queue_clear alive t q).2.1.values.entries = [] ∧
    (rb_queue_clear alive t q).2.2.countP isSpaceSignal = 1 ∧
    (rb_queue_clear alive t q).2.2.countP isSpaceWake ≤ 1 := by
  have hone : ∀ e : Event, List.countP isSpaceWake [e] ≤ 1 := by
    intro e
    by_cases hw : isSpaceWake e <;> simp [List.countP_cons, hw]
  cases he : q.values.entries with
  | nil =>
      have h0 : q.values.size = 0 := by rw [hsize, he]; rfl
      refine ⟨?_, ?_, ?_, ?_⟩ <;>
        simp [rb_queue_clear, RTEST, howner, clear_list, clear_listF, he, h0,
              isSpaceSignal, hone]
  | cons v rest =>
      refine ⟨?_, ?_, ?_, ?_⟩ <;>
        simp [rb_queue_clear, RTEST, howner, clear_list, clear_listF, he,
              isSpaceSignal, hone]

/-- C8 witness: clearing a concrete queue of two values with one blocked
producer. -/
theorem clear_signals_once_witness :
    (rb_queue_clear (fun _ => true) 0
        ⟨init_mutex, init_list, ⟨[some 10], [], 1⟩, ⟨[some 1, some 2], [], 2⟩, 2⟩).2.1.values.size = 0 ∧
    (rb_queue_clear (fun _ => true) 0
        ⟨init_mutex, init_list, ⟨[some 10], [], 1⟩, ⟨[some 1, some 2], [], 2⟩, 2⟩).2.2.countP isSpaceSignal = 1 := by
  have h := clear_signals_once (fun _ => true) 0
    ⟨init_mutex, init_list, ⟨[some 10], [], 1⟩, ⟨[some 1, some 2], [], 2⟩, 2⟩ rfl rfl
  exact ⟨h.1, h.2.2.1⟩

/-! setCapacity (C1). -/

theorem signalTimes_count (alive : Nat → Bool) (n : Nat) :
    ∀ waiting : WList, ((signalTimes alive n waiting).2).countP isSpaceSignal = n := by
  induction n with
  | zero => intro w; simp [signalTimes]
  | succ n ih => intro w; simp [signalTimes, List.countP_cons, isSpaceSignal, ih]

/-- C1 (amended): setCapacity with an accepted (positive) new capacity
stores it; it signals "space available" exactly (newCapacity − current)
times when the current capacity is nonzero and newCapacity exceeds it,
and zero times otherwise — in particular zero times on a currently
unbounded queue (capacity 0), where no producer can be blocked. -/
theorem setCapacity_signal_count (alive : Nat → Bool) (t : Nat) (q : Queue)
    (newCap : Nat) (hpos : 1 ≤ newCap) (howner : q.mutex.owner = none) :
    (rb_sized_queue_max_set alive t q newCap).1 = .ok ∧
    (rb_sized_queue_max_set alive t q newCap).2.1.capacity = newCap ∧
    (rb_sized_queue_max_set alive t q newCap).2.2.countP isSpaceSignal =
      (if q.capacity ≠ 0 ∧ q.capacity < newCap then newCap - q.capacity else 0) := by
  have hnot : ¬ newCap < 1 := by omega
  simp [rb_sized_queue_max_set, RTEST, howner, hnot, signalTimes_count]

/-- C1 witness: raising the capacity from 2 to 5 with three blocked
producers signals exactly three times. -/
theorem setCapacity_signal_count_witness :
    (rb_sized_queue_max_set (fun _ => true) 0
        ⟨init_mutex, init_list, ⟨[some 10, some 11, some 12], [], 3⟩,
         ⟨[some 1, some 2], [], 2⟩, 2⟩ 5).2.1.capacity = 5 ∧
    (rb_sized_queue_max_set (fun _ => true) 0
        ⟨init_mutex, init_list, ⟨[some 10, some 11, some 12], [], 3⟩,
         ⟨[some 1, some 2], [], 2⟩, 2⟩ 5).2.2.countP isSpaceSignal = 3 := by
  have h := setCapacity_signal_count (fun _ => true) 0
    ⟨init_mutex, init_list, ⟨[some 10, some 11, some 12], [], 3⟩,
     ⟨[some 1, some 2], [], 2⟩, 2⟩ 5 (by omega) rfl
  refine ⟨h.2.1, ?_⟩
  rw [h.2.2]
  decide

/-- C1 counterexample: on a currently unbounded queue (capacity 0) with
three tasks sitting on "space available", accepting newCapacity = 5
signals zero times, not the newCapacity − current = 5 times the claim
demands for every current capacity. -/
theorem setCapacity_unbounded_counterexample :
    (rb_sized_queue_max_set (fun _ => true) 0
        ⟨init_mutex, init_list, ⟨[some 10, some 11, some 12], [], 3⟩,
         init_list, 0⟩ 5).2.2.countP isSpaceSignal = 0 ∧
    ¬ ((rb_sized_queue_max_set (fun _ => true) 0
        ⟨init_mutex, init_list, ⟨[some 10, some 11, some 12], [], 3⟩,
         init_list, 0⟩ 5).2.2.countP isSpaceSignal =
        5 - (⟨init_mutex, init_list, ⟨[some 10, some 11, some 12], [], 3⟩,
             init_list, 0⟩ : Queue).capacity) := by
  decide

end Fastthread
